import Mathlib

/-!
Verification development for the meta-agent repository: a shallow embedding of
the frontend API client, the frontend data model (`src/frontend/src/api/types.ts`),
the form-submission logic of the React components, and — where the backend
source is not part of the repository snapshot — models of the store, factory,
task runner and tools built from the specification.
-/

namespace MetaAgent

/-! ## Data model, from `src/frontend/src/api/types.ts` -/

/-- Type `ToolName` from types.ts: the closed union of the three built-in tools. -/
inductive ToolName
  | calculator
  | web_search
  | amap_weather
  deriving DecidableEq, Repr

/-- A JSON-like value, standing in for the TypeScript `unknown` values of a
`Record<string, unknown>` parameter schema. -/
inductive Json
  | null
  | bool (b : Bool)
  | num (q : Rat)
  | str (s : String)
  | arr (xs : List Json)
  | obj (fields : List (String × Json))

/-- Record `ToolConfig` from types.ts. -/
structure ToolConfig where
  name : ToolName
  description : String
  parameters : List (String × Json)

/-- Record `SubAgentSummary` from types.ts (`agent_id` is optional). -/
structure SubAgentSummary where
  agent_id : Option String
  name : String
  description : String
  tools : List ToolName
  deriving DecidableEq, Repr

/-- Record `AgentDefinition` from types.ts. -/
structure AgentDefinition where
  agent_id : String
  name : String
  description : String
  prompt : String
  tools : List ToolConfig
  created_at : String
  is_composite : Bool
  sub_agents : List SubAgentSummary

/-- Record `AgentSummary` from types.ts: the list-view shape. -/
structure AgentSummary where
  agent_id : String
  name : String
  description : String
  tools : List ToolName
  created_at : String
  is_composite : Bool
  deriving DecidableEq, Repr

/-- Record `AgentCreateRequest` from types.ts (`is_composite` optional). -/
structure AgentCreateRequest where
  user_requirement : String
  is_composite : Option Bool
  deriving DecidableEq, Repr

/-- Record `TaskRequest` from types.ts. -/
structure TaskRequest where
  task : String
  deriving DecidableEq, Repr

/-- Record `ToolTrace` from types.ts. -/
structure ToolTrace where
  tool : ToolName
  input : String
  output : String
  succeeded : Bool
  error : Option String
  deriving DecidableEq, Repr

/-- Record `TaskResponse` from types.ts (the spec calls it `TaskResult`). -/
structure TaskResponse where
  agent_id : String
  task : String
  result : String
  tool_traces : List ToolTrace
  raw_response : Option String
  created_at : String
  deriving DecidableEq, Repr

/-! ## HTTP client, from `src/unnamed/part_000` (the axios API wrapper) -/

inductive Method
  | get
  | post
  | delete
  deriving DecidableEq, Repr

/-- Request bodies the client can send. -/
inductive RequestBody
  | empty
  | agentCreate (r : AgentCreateRequest)
  | taskReq (r : TaskRequest)
  deriving DecidableEq, Repr

/-- The response payload shape an operation is declared to produce. -/
inductive ResponseShape
  | agentDefinition
  | agentSummaryList
  | taskResult
  | noBody
  deriving DecidableEq, Repr

/-- An HTTP request as the client builds it (method, path relative to the API
base, body), together with the declared response shape. -/
structure ClientCall where
  method : Method
  path : String
  body : RequestBody
  response : ResponseShape
  deriving DecidableEq, Repr

/-- Function `createAgent` from part_000: `apiClient.post("/agents", payload)` typed
`AgentDefinition`. -/
def createAgent (payload : AgentCreateRequest) : ClientCall :=
  ⟨Method.post, "/agents", RequestBody.agentCreate payload, ResponseShape.agentDefinition⟩

/-- Function `fetchAgents` from part_000: `apiClient.get("/agents")` typed
`AgentSummary[]`. -/
def fetchAgents : ClientCall :=
  ⟨Method.get, "/agents", RequestBody.empty, ResponseShape.agentSummaryList⟩

/-- Function `fetchAgent` from part_000: `apiClient.get("/agents/" + agentId)` typed
`AgentDefinition`. -/
def fetchAgent (agentId : String) : ClientCall :=
  ⟨Method.get, "/agents/" ++ agentId, RequestBody.empty, ResponseShape.agentDefinition⟩

/-- Function `runTask` from part_000: `apiClient.post("/agents/" + agentId + "/tasks", payload)`
typed `TaskResponse`. -/
def runTask (agentId : String) (payload : TaskRequest) : ClientCall :=
  ⟨Method.post, "/agents/" ++ agentId ++ "/tasks", RequestBody.taskReq payload,
    ResponseShape.taskResult⟩

/-- Function `deleteAgent` from part_000: `apiClient.delete("/agents/" + agentId)`, no
response body used. -/
def deleteAgent (agentId : String) : ClientCall :=
  ⟨Method.delete, "/agents/" ++ agentId, RequestBody.empty, ResponseShape.noBody⟩

/-- The spec's HTTP-surface table (section 6), written from the spec's words:
one row per operation, with the parametric `{id}` paths as functions. -/
def specCreateAgentRow (payload : AgentCreateRequest) : ClientCall :=
  ⟨Method.post, "/agents", RequestBody.agentCreate payload, ResponseShape.agentDefinition⟩

def specListAgentsRow : ClientCall :=
  ⟨Method.get, "/agents", RequestBody.empty, ResponseShape.agentSummaryList⟩

def specGetAgentRow (id : String) : ClientCall :=
  ⟨Method.get, "/agents/" ++ id, RequestBody.empty, ResponseShape.agentDefinition⟩

def specRunTaskRow (id : String) (payload : TaskRequest) : ClientCall :=
  ⟨Method.post, "/agents/" ++ id ++ "/tasks", RequestBody.taskReq payload,
    ResponseShape.taskResult⟩

def specDeleteAgentRow (id : String) : ClientCall :=
  ⟨Method.delete, "/agents/" ++ id, RequestBody.empty, ResponseShape.noBody⟩

/-! ## Tool registry names -/

/-- Modelled from the spec: the ToolRegistry (`backend/app/services/registry.py`
and `tools.py` are not in the snapshot) "holds the fixed set of ToolDescriptors
for the three built-in tools"; its known names are the three members of the
frontend `ToolName` union. -/
def registryKnownNames : List ToolName :=
  [ToolName.calculator, ToolName.web_search, ToolName.amap_weather]

/-! ## List-view projection -/

/-- Modelled from the spec: the backend projection producing an `AgentSummary`
from an `AgentDefinition` (the backend model code is not in the snapshot).
"`AgentSummary` is the list-view projection of `AgentDefinition`:
`{agent_id, name, description, tools: [ToolName], created_at, is_composite}`
(omits `prompt` and full tool parameter schemas)." -/
def summaryOf (d : AgentDefinition) : AgentSummary :=
  { agent_id := d.agent_id
    name := d.name
    description := d.description
    tools := d.tools.map ToolConfig.name
    created_at := d.created_at
    is_composite := d.is_composite }

/-! ## Form submission logic, from the React components

`AgentBuilder.handleSubmit` guards on `requirement.trim()` being truthy and
sends the trimmed text; `TaskRunner.handleSubmit` guards on the selected
`agentId` and `task.trim()` being truthy and sends the trimmed task. A JS
string is falsy exactly when it is empty, and a selected id is a string or
`null`, so both are modelled with `Option`: the function returns the request
the mutation is given, or `none` when the handler returns without mutating. -/

/-- The JS `String.prototype.trim`: drop whitespace from both ends, modelled
on the character list. -/
def jsTrim (s : String) : String :=
  String.mk (((s.data.dropWhile Char.isWhitespace).reverse.dropWhile
    Char.isWhitespace).reverse)

/-- The JS `raw.split("\n")` on the character list: split at every newline;
never empty (the empty string yields one empty piece, as in JS). -/
def splitNl : List Char → List (List Char)
  | [] => [[]]
  | c :: cs =>
      let r := splitNl cs
      if c = '\n' then [] :: r
      else
        match r with
        | h :: t => (c :: h) :: t
        | [] => [[c]]

/-- Lines of a string, as JS `split("\n")` produces them. -/
def linesOf (s : String) : List String := (splitNl s.data).map String.mk

/-- Handler `handleSubmit` of `src/frontend/src/components/AgentBuilder.tsx`. -/
def agentBuilderSubmit (requirement : String) (isComposite : Bool) :
    Option AgentCreateRequest :=
  if jsTrim requirement = "" then none
  else some ⟨jsTrim requirement, some isComposite⟩

/-- Handler `handleSubmit` of the `TaskRunner` component in
`src/frontend/src/components/AgentList.tsx`: returns the `(agentId, payload)`
pair handed to `runTask`, or `none` when the guard fires. -/
def taskRunnerSubmit (agentId : Option String) (task : String) :
    Option (String × TaskRequest) :=
  match agentId with
  | none => none
  | some id =>
      if id = "" then none
      else if jsTrim task = "" then none
      else some (id, ⟨jsTrim task⟩)

/-! ## Markdown demotion helper from the `TaskResultView` component in
`src/frontend/src/components/AgentList.tsx` -/

/-- The JS regex replacement `first.replace(/^#\s+/, "")`: drop a leading `#`
together with the one-or-more whitespace characters that follow it, when that
pattern matches at the start; otherwise leave the string unchanged. -/
def stripHashWs (s : String) : String :=
  match s.data with
  | '#' :: c :: rest =>
      if c.isWhitespace then String.mk ((c :: rest).dropWhile Char.isWhitespace)
      else s
  | _ => s

/-- The JS regex test `/^#\s+/.test(first)`. -/
def isHashWsStart (s : String) : Bool :=
  match s.data with
  | '#' :: c :: _ => c.isWhitespace
  | _ => false

/-- Function `toRenderableMarkdown` from `AgentList.tsx` (TaskResultView). `lastTask` is
the component's `string | undefined` prop; `raw.split("\n")` never yields an
empty array in JS, so the `lines.length === 0` early return is dead and the
match below keeps it only for totality. The first `if` mirrors
`lastTask && stripped === lastTask.trim()` (a JS string is truthy iff
non-empty); the second mirrors `/^#\s+/.test(first)`. -/
def toRenderableMarkdown (lastTask : Option String) (raw : String) : String :=
  match linesOf raw with
  | [] => raw
  | first :: rest =>
      let stripped := jsTrim (stripHashWs first)
      if (match lastTask with
          | some lt => !(lt = "") && (stripped = jsTrim lt : Bool)
          | none => false) then
        String.intercalate "\n" (("> " ++ stripped) :: rest)
      else if isHashWsStart first then
        String.intercalate "\n" (("> " ++ stripped) :: rest)
      else raw

/-- Decidable equality for `Except`, so that concrete tool outcomes can be
checked by evaluation. -/
instance {α β : Type} [DecidableEq α] [DecidableEq β] : DecidableEq (Except α β) :=
  fun a b =>
    match a, b with
    | Except.ok x, Except.ok y =>
        if h : x = y then Decidable.isTrue (congrArg Except.ok h)
        else Decidable.isFalse (fun hc => h (Except.ok.inj hc))
    | Except.error x, Except.error y =>
        if h : x = y then Decidable.isTrue (congrArg Except.error h)
        else Decidable.isFalse (fun hc => h (Except.error.inj hc))
    | Except.ok _, Except.error _ => Decidable.isFalse (fun hc => Except.noConfusion hc)
    | Except.error _, Except.ok _ => Decidable.isFalse (fun hc => Except.noConfusion hc)

/-! ## Calculator tool

Modelled from the spec: `backend/app/services/tools.py` is not in the
snapshot. "Calculator: parses and evaluates an arithmetic expression
restricted to numeric literals and `+ - * / ( )` (no arbitrary code
evaluation); fails with `ToolExecutionError` on malformed expressions or
division by zero; output is the decimal result as a string." Numeric literals
are modelled as digit sequences and values as exact rationals. -/

/-- Tokens of the calculator's expression language. -/
inductive Tok
  | num (n : Nat)
  | plus
  | minus
  | star
  | slash
  | lparen
  | rparen
  deriving DecidableEq, Repr

/-- Arithmetic expressions over numeric literals and the four operators. -/
inductive Expr
  | num (n : Nat)
  | add (a b : Expr)
  | sub (a b : Expr)
  | mul (a b : Expr)
  | div (a b : Expr)
  deriving DecidableEq, Repr

/-- Numeric value of a decimal digit character. -/
def digitVal (c : Char) : Nat := c.toNat - 48

/-- Value of a digit-character run read left to right. -/
def natOfDigits (ds : List Char) : Nat :=
  ds.foldl (fun a c => a * 10 + digitVal c) 0

/-- Decimal digit characters of a positive natural number, most significant
first, with a structural fuel so that concrete instances evaluate. -/
def natCharsAux : Nat → Nat → List Char
  | 0, _ => []
  | fuel + 1, n =>
      if n = 0 then [] else natCharsAux fuel (n / 10) ++ [Nat.digitChar (n % 10)]

/-- Decimal digit characters of a natural number, most significant first. -/
def natChars (n : Nat) : List Char :=
  if n = 0 then ['0'] else natCharsAux n n

/-- Emit the pending digit run (if any) as a number token in front of `ts`. -/
def flushDigits (pending : List Char) (ts : List Tok) : List Tok :=
  if pending.isEmpty then ts else Tok.num (natOfDigits pending) :: ts

/-- Map an operator or parenthesis character to its token. -/
def opTok (c : Char) : Option Tok :=
  if c = '+' then some Tok.plus
  else if c = '-' then some Tok.minus
  else if c = '*' then some Tok.star
  else if c = '/' then some Tok.slash
  else if c = '(' then some Tok.lparen
  else if c = ')' then some Tok.rparen
  else none

/-- Tokenizer worker: scan characters left to right, accumulating the digit
run `pending`; spaces and operators flush it; any other character is a lex
error. -/
def groupAux : List Char → List Char → Option (List Tok)
  | [], pending => some (flushDigits pending [])
  | c :: cs, pending =>
      if c.isDigit then groupAux cs (pending ++ [c])
      else if c = ' ' then (groupAux cs []).map (flushDigits pending)
      else
        match opTok c with
        | some t => (groupAux cs []).map (fun ts => flushDigits pending (t :: ts))
        | none => none

/-- Tokenize an input string; `none` on a character outside the allowed
alphabet. -/
def tokenize (s : String) : Option (List Tok) := groupAux s.data []

/-! Recursive-descent parser for
`expr := term ((+|-) term)* ; term := factor ((*|/) factor)* ;
factor := number | ( expr )`, with an explicit fuel argument. -/

mutual

def parseFactor : Nat → List Tok → Option (Expr × List Tok)
  | 0, _ => none
  | _ + 1, Tok.num n :: ts => some (Expr.num n, ts)
  | fuel + 1, Tok.lparen :: ts =>
      match parseExpr fuel ts with
      | some (e, Tok.rparen :: ts2) => some (e, ts2)
      | _ => none
  | _ + 1, _ => none

def parseTerm : Nat → List Tok → Option (Expr × List Tok)
  | 0, _ => none
  | fuel + 1, ts =>
      match parseFactor fuel ts with
      | some (e, ts2) => parseTermLoop fuel e ts2
      | none => none

def parseTermLoop : Nat → Expr → List Tok → Option (Expr × List Tok)
  | 0, _, _ => none
  | fuel + 1, e, Tok.star :: ts =>
      match parseFactor fuel ts with
      | some (f, ts2) => parseTermLoop fuel (Expr.mul e f) ts2
      | none => none
  | fuel + 1, e, Tok.slash :: ts =>
      match parseFactor fuel ts with
      | some (f, ts2) => parseTermLoop fuel (Expr.div e f) ts2
      | none => none
  | _ + 1, e, ts => some (e, ts)

def parseExpr : Nat → List Tok → Option (Expr × List Tok)
  | 0, _ => none
  | fuel + 1, ts =>
      match parseTerm fuel ts with
      | some (e, ts2) => parseExprLoop fuel e ts2
      | none => none

def parseExprLoop : Nat → Expr → List Tok → Option (Expr × List Tok)
  | 0, _, _ => none
  | fuel + 1, e, Tok.plus :: ts =>
      match parseTerm fuel ts with
      | some (f, ts2) => parseExprLoop fuel (Expr.add e f) ts2
      | none => none
  | fuel + 1, e, Tok.minus :: ts =>
      match parseTerm fuel ts with
      | some (f, ts2) => parseExprLoop fuel (Expr.sub e f) ts2
      | none => none
  | _ + 1, e, ts => some (e, ts)

end

/-- Parse a whole token list to an expression; fuel linear in the length is
ample since every recursive call either consumes a token or moves one
grammar level down. -/
def parseToks (ts : List Tok) : Option Expr :=
  match parseExpr (3 * ts.length + 3) ts with
  | some (e, []) => some e
  | _ => none

/-- An exact (unnormalized) rational value: numerator and positive
denominator, kept as plain machine-free integers so concrete runs evaluate
inside the kernel. -/
structure Q where
  num : Int
  den : Nat
  deriving DecidableEq, Repr

def qAdd (a b : Q) : Q := ⟨a.num * b.den + b.num * a.den, a.den * b.den⟩

def qSub (a b : Q) : Q := ⟨a.num * b.den - b.num * a.den, a.den * b.den⟩

def qMul (a b : Q) : Q := ⟨a.num * b.num, a.den * b.den⟩

def qDiv (a b : Q) : Q :=
  if b.num < 0 then ⟨-(a.num * b.den), a.den * b.num.natAbs⟩
  else ⟨a.num * b.den, a.den * b.num.natAbs⟩

/-- Evaluate an expression to an exact rational; `none` on division by zero. -/
def evalE : Expr → Option Q
  | Expr.num n => some ⟨Int.ofNat n, 1⟩
  | Expr.add a b =>
      match evalE a, evalE b with
      | some x, some y => some (qAdd x y)
      | _, _ => none
  | Expr.sub a b =>
      match evalE a, evalE b with
      | some x, some y => some (qSub x y)
      | _, _ => none
  | Expr.mul a b =>
      match evalE a, evalE b with
      | some x, some y => some (qMul x y)
      | _, _ => none
  | Expr.div a b =>
      match evalE a, evalE b with
      | some x, some y => if y.num = 0 then none else some (qDiv x y)
      | _, _ => none

/-- Render a rational result in lowest terms: integer values print as plain
decimal integers, non-integer values as an exact fraction (the backend's
floating-point printing is abstracted to exact arithmetic). -/
def renderQ (q : Q) : String :=
  let g := Nat.gcd q.num.natAbs q.den
  let na := q.num.natAbs / g
  let d := q.den / g
  let numChars := if q.num < 0 ∧ na ≠ 0 then '-' :: natChars na else natChars na
  if d = 1 then String.mk numChars
  else String.mk (numChars ++ '/' :: natChars d)

/-- Invoke the calculator capability on an input string. -/
def calcInvoke (input : String) : Except String String :=
  match tokenize input with
  | none => Except.error "ToolExecutionError: malformed expression"
  | some ts =>
      match parseToks ts with
      | none => Except.error "ToolExecutionError: malformed expression"
      | some e =>
          match evalE e with
          | none => Except.error "ToolExecutionError: division by zero"
          | some q => Except.ok (renderQ q)

/-- Whether a string is a well-formed arithmetic expression (used by the task
runner's deterministic fallback to detect arithmetic tasks). -/
def isArithmeticExpr (s : String) : Bool :=
  match tokenize s with
  | some ts => (parseToks ts).isSome
  | none => false

/-- Token list of the fully parenthesized printing of an expression. -/
def tokensOf : Expr → List Tok
  | Expr.num n => [Tok.num n]
  | Expr.add a b => Tok.lparen :: (tokensOf a ++ Tok.plus :: (tokensOf b ++ [Tok.rparen]))
  | Expr.sub a b => Tok.lparen :: (tokensOf a ++ Tok.minus :: (tokensOf b ++ [Tok.rparen]))
  | Expr.mul a b => Tok.lparen :: (tokensOf a ++ Tok.star :: (tokensOf b ++ [Tok.rparen]))
  | Expr.div a b => Tok.lparen :: (tokensOf a ++ Tok.slash :: (tokensOf b ++ [Tok.rparen]))

/-- Characters of one token. -/
def tokChars : Tok → List Char
  | Tok.num n => natChars n
  | Tok.plus => ['+']
  | Tok.minus => ['-']
  | Tok.star => ['*']
  | Tok.slash => ['/']
  | Tok.lparen => ['(']
  | Tok.rparen => [')']

/-- Characters of a token list, concatenated with no separators. -/
def toksChars : List Tok → List Char
  | [] => []
  | t :: ts => tokChars t ++ toksChars ts

/-- Print an expression fully parenthesized. -/
def printE (e : Expr) : String := String.mk (toksChars (tokensOf e))

/-- Size measure giving ample parser fuel for a printed expression. -/
def fsize : Expr → Nat
  | Expr.num _ => 1
  | Expr.add a b => fsize a + fsize b + 4
  | Expr.sub a b => fsize a + fsize b + 4
  | Expr.mul a b => fsize a + fsize b + 4
  | Expr.div a b => fsize a + fsize b + 4

/-- True on every token except numbers. -/
def notNum : Tok → Bool
  | Tok.num _ => false
  | _ => true

/-- Printed tokens never merge back together exactly when no two adjacent
tokens are both numbers. -/
def sepOk (x y : Tok) : Prop := notNum x = true ∨ notNum y = true

/-- The character list does not start with a decimal digit. -/
def headNonDigit : List Char → Bool
  | [] => true
  | c :: _ => !c.isDigit

/-- The token list does not start with a multiplicative operator. -/
def headNotMulDiv : List Tok → Bool
  | Tok.star :: _ => false
  | Tok.slash :: _ => false
  | _ => true

/-- The token list does not start with any of the four binary operators. -/
def headNotOp : List Tok → Bool
  | Tok.plus :: _ => false
  | Tok.minus :: _ => false
  | Tok.star :: _ => false
  | Tok.slash :: _ => false
  | _ => true

/-! ## Environment and tool availability -/

/-- Modelled from the spec: "each tool requires zero or more named
credentials; absence of a required credential removes that tool from
`available_tools()`". Per the README, `web_search` needs the Google search
key and cx, `amap_weather` needs the AMap key, and the calculator needs no
credential. -/
structure Env where
  googleKeySet : Bool
  amapKeySet : Bool
  deriving DecidableEq, Repr

/-- Availability predicate of one tool under an environment. -/
def toolAvailable (env : Env) : ToolName → Bool
  | ToolName.calculator => true
  | ToolName.web_search => env.googleKeySet
  | ToolName.amap_weather => env.amapKeySet

/-- Modelled from the spec: `available_tools()` returns only descriptors
whose availability predicate holds. -/
def availableTools (env : Env) : List ToolName :=
  registryKnownNames.filter (toolAvailable env)

/-- Modelled from the spec: the static ToolDescriptor of each built-in tool
(name, description, parameter schema), as the `ToolConfig` an agent stores. -/
def toolDescriptor : ToolName → ToolConfig
  | ToolName.calculator =>
      ⟨ToolName.calculator, "Evaluate an arithmetic expression",
        [("expression", Json.str "string")]⟩
  | ToolName.web_search =>
      ⟨ToolName.web_search, "Search the web via Google Programmable Search",
        [("query", Json.str "string")]⟩
  | ToolName.amap_weather =>
      ⟨ToolName.amap_weather, "Look up weather for a location via AMap",
        [("location", Json.str "string")]⟩

/-- External providers for the two network tools, as oracles: each maps an
input to a tool output or a failure message. -/
structure ToolProviders where
  webApi : String → Except String String
  amapApi : String → Except String String

/-- Modelled from the spec: the uniform `invoke` contract of the
ToolCapability set. The calculator is pure; the two network tools consult
their provider oracle. -/
def invokeTool (prov : ToolProviders) : ToolName → String → Except String String
  | ToolName.calculator, input => calcInvoke input
  | ToolName.web_search, input => prov.webApi input
  | ToolName.amap_weather, input => prov.amapApi input

/-! ## AgentStore

Modelled from the spec: `backend/app/services/registry.py` is not in the
snapshot. The in-memory keyed collection is mirrored to a durable snapshot
file; every mutation updates memory under the store lock (a mutation is one
atomic step of this model) and then rewrites the snapshot via
write-temporary-then-rename. -/

/-- A durable snapshot: the full keyed set of agent definitions. -/
abbrev Snapshot : Type := List (String × AgentDefinition)

/-- The durable medium: the snapshot file and the temporary file that a
write-in-progress fills before the atomic rename. -/
structure DurableState where
  mainFile : Snapshot
  tempFile : Snapshot

/-- Store state: the in-memory collection plus the durable medium. -/
structure StoreState where
  memory : Snapshot
  durable : DurableState

/-- In-memory and durable views agree: the snapshot file holds exactly the
in-memory collection. -/
def storeConsistent (s : StoreState) : Prop := s.memory = s.durable.mainFile

/-- Every durable-medium state passed through while replacing snapshot `old`
by snapshot `new`: the temporary file grows entry by entry (the snapshot file
untouched), then one atomic rename installs the new snapshot and drops the
temporary. Index `k` of the list is the state after `k` elementary steps. -/
def snapshotWriteStates (old new : Snapshot) : List DurableState :=
  ((List.range (new.length + 1)).map fun k => ⟨old, new.take k⟩) ++ [⟨new, []⟩]

/-- A mutating store operation. -/
inductive Mutation
  | create (d : AgentDefinition)
  | delete (id : String)

/-- The in-memory collection a mutation produces. -/
def applyMem (mem : Snapshot) : Mutation → Snapshot
  | Mutation.create d => mem ++ [(d.agent_id, d)]
  | Mutation.delete id => mem.filter fun e => !(e.1 = id : Bool)

/-- Result of a mutating operation: the resulting store state, and whether
it committed (`ok = false` is the surfaced `PersistenceError`). -/
structure MutationResult where
  state : StoreState
  ok : Bool

/-- A mutating operation under the store lock: update memory, write the new
snapshot durably (`writeOk` says whether the durable write succeeds); if the
write fails, roll the in-memory change back, leaving the old state. -/
def applyMutation (s : StoreState) (m : Mutation) (writeOk : Bool) : MutationResult :=
  let mem2 := applyMem s.memory m
  if writeOk then ⟨⟨mem2, ⟨mem2, []⟩⟩, true⟩
  else ⟨⟨s.memory, s.durable⟩, false⟩

/-- The durable-medium states a crash during mutation `m` on state `s` can
leave behind: exactly the intermediate states of the snapshot write. -/
def mutationCrashStates (s : StoreState) (m : Mutation) : List DurableState :=
  snapshotWriteStates s.durable.mainFile (applyMem s.memory m)

/-- Modelled from the spec: `get(id)` fails with `NotFoundError` if absent. -/
def storeGet (s : StoreState) (id : String) : Option AgentDefinition :=
  (s.memory.find? fun e => (e.1 = id : Bool)).map Prod.snd

/-- Modelled from the spec: `list()` returns the list-view projection of
every stored definition. -/
def storeList (s : StoreState) : List AgentSummary :=
  s.memory.map fun e => summaryOf e.2

/-! ## AgentFactory

Modelled from the spec: `backend/app/services/agent_factory.py` is not in
the snapshot. Each model-dependent step takes the parsed model output as an
`Option` (`none` covers both model unavailability and parse failure) and has
a deterministic fallback. -/

/-- Parsed model outputs the factory consumes in one `create` call:
the tool selection, the metadata triple (name, description, prompt) and the
composite decomposition into sub-requirements. -/
structure FactoryModel where
  toolSelection : Option (List ToolName)
  metadata : Option (String × String × String)
  decomposition : Option (List String)

/-- Whether `pat` occurs as a contiguous substring of `s`. -/
def containsSub (s pat : String) : Bool := decide (pat.data <:+: s.data)

/-- Modelled from the spec: the deterministic keyword fallback for tool
selection — arithmetic-looking terms map to the calculator, search/news terms
to web search, weather terms to the weather tool; no cue selects no tools. -/
def keywordFallbackTools (req : String) : List ToolName :=
  (if containsSub req "计算" ∨ containsSub req "calculat" ∨
      isArithmeticExpr (jsTrim req) then [ToolName.calculator] else []) ++
  (if containsSub req "搜索" ∨ containsSub req "search" ∨
      containsSub req "news" ∨ containsSub req "新闻" then
    [ToolName.web_search] else []) ++
  (if containsSub req "天气" ∨ containsSub req "weather" then
    [ToolName.amap_weather] else [])

/-- Modelled from the spec: tool selection. A parsed model selection is
restricted to available names (unknown or unavailable names silently
dropped, duplicates removed); on parse failure or unavailability the keyword
fallback runs, also restricted to available names. -/
def selectTools (env : Env) (req : String) (modelSel : Option (List ToolName)) :
    List ToolName :=
  match modelSel with
  | some names => (names.filter fun n => (availableTools env).contains n).dedup
  | none => ((keywordFallbackTools req).filter fun n => (availableTools env).contains n).dedup

/-- Modelled from the spec: metadata synthesis, with deterministic templated
fallback values derived from the requirement (truncated requirement as
description, a generic prompt naming the selected tools). -/
def synthMetadata (req : String) (tools : List ToolName) :
    Option (String × String × String) → String × String × String
  | some m => m
  | none =>
      ("Agent: " ++ (req.take 20),
        req.take 50,
        "You are a helpful agent. You may use these tools: " ++
          String.intercalate ", " (tools.map fun t => (toolDescriptor t).description))

/-- Modelled from the spec: one `SubAgentSummary` built from one
sub-requirement by the deterministic path of steps 1 and 2 (`agent_id` stays
absent: sub-agents remain unmaterialized summaries). -/
def subAgentOf (env : Env) (subReq : String) : SubAgentSummary :=
  let tools := selectTools env subReq none
  let md := synthMetadata subReq tools none
  ⟨none, md.1, md.2.1, tools⟩

/-- Modelled from the spec: `AgentFactory.create`. Selects tools, synthesizes
metadata, decomposes into sub-agents only when `is_composite` (no sub-agents
when the decomposition is unavailable), then builds the definition with the
fresh id and timestamp it is given. -/
def factoryCreate (env : Env) (model : FactoryModel) (req : String)
    (isComposite : Bool) (freshId : String) (now : String) : AgentDefinition :=
  let toolNames := selectTools env req model.toolSelection
  let md := synthMetadata req toolNames model.metadata
  let subs :=
    if isComposite then
      match model.decomposition with
      | some reqs => reqs.map (subAgentOf env)
      | none => []
    else []
  { agent_id := freshId
    name := md.1
    description := md.2.1
    prompt := md.2.2
    tools := toolNames.map toolDescriptor
    created_at := now
    is_composite := isComposite
    sub_agents := subs }

/-! ## TaskRunner

Modelled from the spec: `backend/app/services/task_runner.py` is not in the
snapshot. The model call yields either nothing (`none`: unavailable or
unparseable, falling back deterministically) or its raw text together with a
parsed plan — a direct answer, or an ordered list of tool calls with an
optional final answer. -/

/-- One planned tool call. -/
structure ToolCall where
  tool : ToolName
  input : String
  deriving DecidableEq, Repr

/-- A parsed planning response. -/
inductive ModelPlan
  | direct (answer : String)
  | toolCalls (calls : List ToolCall) (finalAnswer : Option String)
  deriving DecidableEq, Repr

/-- Execute one planned call: resolve the tool against the agent's configured
tools and current availability (failure is the `ToolUnavailableError` trace),
then invoke it (failure is the `ToolExecutionError` trace); always produce
one `ToolTrace`, never abort. -/
def execCall (env : Env) (prov : ToolProviders) (agent : AgentDefinition)
    (c : ToolCall) : ToolTrace :=
  if !(agent.tools.map ToolConfig.name).contains c.tool then
    ⟨c.tool, c.input, "", false, some "ToolUnavailableError: tool not configured for this agent"⟩
  else if !toolAvailable env c.tool then
    ⟨c.tool, c.input, "", false, some "ToolUnavailableError: required credential is missing"⟩
  else
    match invokeTool prov c.tool c.input with
    | Except.ok out => ⟨c.tool, c.input, out, true, none⟩
    | Except.error e => ⟨c.tool, c.input, "", false, some e⟩

/-- Modelled from the spec: the final-result fallback — concatenate the tool
outputs, or echo the raw task if there are none. -/
def fallbackResult (task : String) (traces : List ToolTrace) : String :=
  let outs := (traces.filter fun t => t.succeeded).map ToolTrace.output
  if outs.isEmpty then task else String.intercalate "\n" outs

/-- Modelled from the spec: the direct fallback when the model is unavailable
or the agent has no tools — detect an arithmetic expression in the task and
invoke the calculator directly if the agent has it, otherwise echo the task. -/
def fallbackRun (env : Env) (prov : ToolProviders) (agent : AgentDefinition)
    (task : String) : String × List ToolTrace :=
  if isArithmeticExpr (jsTrim task) ∧
      (agent.tools.map ToolConfig.name).contains ToolName.calculator ∧
      toolAvailable env ToolName.calculator = true then
    let tr := execCall env prov agent ⟨ToolName.calculator, jsTrim task⟩
    (if tr.succeeded then tr.output else task, [tr])
  else (task, [])

/-- Modelled from the spec: `TaskRunner.run`. With no usable model response,
or an agent with zero tools, the deterministic fallback runs. Otherwise a
direct answer is returned with no tool calls, or the planned calls execute
sequentially in plan order, each yielding one trace, and the final answer (or
the deterministic result fallback) becomes the result. The raw model response
is carried only into `raw_response`. -/
def runnerRun (env : Env) (prov : ToolProviders) (agent : AgentDefinition)
    (task : String) (model : Option (String × ModelPlan)) (now : String) :
    TaskResponse :=
  match model with
  | none =>
      let fb := fallbackRun env prov agent task
      ⟨agent.agent_id, task, fb.1, fb.2, none, now⟩
  | some (raw, plan) =>
      if agent.tools.isEmpty then
        let fb := fallbackRun env prov agent task
        ⟨agent.agent_id, task, fb.1, fb.2, some raw, now⟩
      else
        match plan with
        | ModelPlan.direct ans => ⟨agent.agent_id, task, ans, [], some raw, now⟩
        | ModelPlan.toolCalls calls final =>
            let traces := calls.map (execCall env prov agent)
            ⟨agent.agent_id, task,
              (match final with
               | some a => a
               | none => fallbackResult task traces),
              traces, some raw, now⟩

/-! ## Sample values used by concrete witnesses -/

/-- A concrete agent configured with only the calculator tool. -/
def calcAgent : AgentDefinition :=
  { agent_id := "agent-1"
    name := "Calc Agent"
    description := "evaluates arithmetic"
    prompt := "You are a calculator assistant."
    tools := [toolDescriptor ToolName.calculator]
    created_at := "2024-01-01T00:00:00Z"
    is_composite := false
    sub_agents := [] }

/-- A concrete agent configured with only the weather tool. -/
def weatherAgent : AgentDefinition :=
  { agent_id := "agent-2"
    name := "Weather Agent"
    description := "looks up weather"
    prompt := "You are a weather assistant."
    tools := [toolDescriptor ToolName.amap_weather]
    created_at := "2024-01-02T00:00:00Z"
    is_composite := false
    sub_agents := [] }

/-- Providers that always fail, standing in for absent credentials. -/
def downProviders : ToolProviders :=
  ⟨fun _ => Except.error "ToolExecutionError: provider unreachable",
    fun _ => Except.error "ToolExecutionError: provider unreachable"⟩

/-- The store before any agent exists. -/
def emptyStore : StoreState := ⟨[], ⟨[], []⟩⟩

/-! ## Invariants -/

/-- The spec's composite invariant on one definition: no sub-agents unless
composite. -/
def subAgentsInv (d : AgentDefinition) : Prop :=
  d.is_composite = false → d.sub_agents = []

/-- The composite invariant over everything the store holds in memory. -/
def storeInv (s : StoreState) : Prop := ∀ e ∈ s.memory, subAgentsInv e.2

/-- The replacement first line as the claim words it: "> " followed by the
first line stripped of a leading literal "# " prefix (nothing else changed,
in particular no trimming of the remaining text). -/
def claimDemotedFirstLine (first : String) : String :=
  "> " ++ (match first.data with
           | '#' :: ' ' :: rest => String.mk rest
           | _ => first)

/-! # Claims -/

/-- C1: the API client maps every operation of the HTTP surface to exactly
the method, path, request body and response shape of the spec's table:
createAgent POSTs `/agents` with the create payload for an AgentDefinition;
fetchAgents GETs `/agents` for a list of AgentSummary; fetchAgent GETs
`/agents/{id}` for an AgentDefinition; runTask POSTs `/agents/{id}/tasks`
with the task payload for a TaskResult; deleteAgent DELETEs `/agents/{id}`
with no response body. -/
theorem c1_client_matches_spec_table :
    (∀ payload, createAgent payload = specCreateAgentRow payload) ∧
    fetchAgents = specListAgentsRow ∧
    (∀ id, fetchAgent id = specGetAgentRow id) ∧
    (∀ id payload, runTask id payload = specRunTaskRow id payload) ∧
    (∀ id, deleteAgent id = specDeleteAgentRow id) :=
  ⟨fun _ => rfl, rfl, fun _ => rfl, fun _ _ => rfl, fun _ => rfl⟩

/-- C3: the list-view projection of an AgentDefinition keeps exactly
agent_id, name, description, the list of tool names, created_at and
is_composite, each equal to the definition's field, and is independent of
the prompt, of every tool's parameter schema and of the sub_agents. -/
theorem c3_summary_is_list_view_projection (d : AgentDefinition) (p : String)
    (ps : ToolConfig → List (String × Json)) (sa : List SubAgentSummary) :
    (summaryOf d).agent_id = d.agent_id ∧
    (summaryOf d).name = d.name ∧
    (summaryOf d).description = d.description ∧
    (summaryOf d).tools = d.tools.map ToolConfig.name ∧
    (summaryOf d).created_at = d.created_at ∧
    (summaryOf d).is_composite = d.is_composite ∧
    summaryOf { d with
      prompt := p
      sub_agents := sa
      tools := d.tools.map fun t => { t with parameters := ps t } } = summaryOf d := by
  refine ⟨rfl, rfl, rfl, rfl, rfl, rfl, ?_⟩
  simp only [summaryOf, List.map_map]
  rfl

/-- C3 witness: the projection field equalities at a concrete definition. -/
theorem c3_summary_is_list_view_projection_witness :
    (summaryOf calcAgent).tools = calcAgent.tools.map ToolConfig.name ∧
    (summaryOf calcAgent).agent_id = calcAgent.agent_id :=
  ⟨(c3_summary_is_list_view_projection calcAgent "" (fun _ => []) []).2.2.2.1,
    (c3_summary_is_list_view_projection calcAgent "" (fun _ => []) []).1⟩

/-- C5: the tool-name type is a closed set of exactly the three registry
names (calculator, web_search, amap_weather), and every ToolConfig of every
AgentDefinition carries a name in the registry's known names. -/
theorem c5_tool_names_closed_registry :
    (∀ t : ToolName, t ∈ registryKnownNames) ∧
    registryKnownNames.length = 3 ∧
    registryKnownNames.Nodup ∧
    (∀ (d : AgentDefinition), ∀ tc ∈ d.tools, tc.name ∈ registryKnownNames) := by
  refine ⟨fun t => ?_, by decide, by decide, fun d tc _ => ?_⟩
  · cases t <;> simp [registryKnownNames]
  · cases tc.name <;> simp [registryKnownNames]

/-- C5 witness: the registry membership at a concrete definition and tool. -/
theorem c5_tool_names_closed_registry_witness :
    (toolDescriptor ToolName.calculator).name ∈ registryKnownNames :=
  c5_tool_names_closed_registry.2.2.2 calcAgent (toolDescriptor ToolName.calculator)
    (List.mem_singleton.mpr rfl)

/-- C9: the AgentBuilder form issues a createAgent request exactly when the
whitespace-trimmed requirement is non-empty and then sends the trimmed text,
and the TaskRunner form issues a runTask request exactly when an agent is
selected and the trimmed task is non-empty and then sends the trimmed task —
so no request with a blank requirement or task is ever sent. -/
theorem c9_forms_send_trimmed_nonblank :
    (∀ r ic, (agentBuilderSubmit r ic).isSome = true ↔ jsTrim r ≠ "") ∧
    (∀ r ic req, agentBuilderSubmit r ic = some req →
        req.user_requirement = jsTrim r ∧ req.user_requirement ≠ "" ∧
        req.is_composite = some ic) ∧
    (∀ aid t, (taskRunnerSubmit aid t).isSome = true ↔
        (∃ id, aid = some id ∧ id ≠ "") ∧ jsTrim t ≠ "") ∧
    (∀ aid t id req, taskRunnerSubmit aid t = some (id, req) →
        req.task = jsTrim t ∧ req.task ≠ "" ∧ aid = some id) := by
  refine ⟨fun r ic => ?_, fun r ic req h => ?_, fun aid t => ?_, fun aid t id req h => ?_⟩
  · unfold agentBuilderSubmit
    split <;> simp_all
  · unfold agentBuilderSubmit at h
    split at h
    · exact absurd h (by simp)
    · cases h
      simp_all
  · unfold taskRunnerSubmit
    cases aid with
    | none => simp
    | some v =>
        by_cases hv : v = "" <;> by_cases ht : jsTrim t = "" <;> simp_all
  · unfold taskRunnerSubmit at h
    cases aid with
    | none => exact absurd h (by simp)
    | some v =>
        by_cases hv : v = ""
        · simp [hv] at h
        · by_cases ht : jsTrim t = ""
          · simp [hv, ht] at h
          · simp only [if_neg hv, if_neg ht, Option.some.injEq, Prod.mk.injEq] at h
            obtain ⟨h1, h2⟩ := h
            subst h1
            exact ⟨by rw [← h2], by rw [← h2]; exact ht, rfl⟩

/-- C9 witness: a concrete submission sends the trimmed requirement. -/
theorem c9_forms_send_trimmed_nonblank_witness :
    agentBuilderSubmit " build an agent " false =
      some ⟨"build an agent", some false⟩ ∧
    (⟨"build an agent", some false⟩ : AgentCreateRequest).user_requirement =
      jsTrim " build an agent " ∧
    taskRunnerSubmit (some "agent-1") " 1+1 " = some ("agent-1", ⟨"1+1"⟩) ∧
    (⟨"1+1"⟩ : TaskRequest).task = jsTrim " 1+1 " :=
  ⟨by decide,
    (c9_forms_send_trimmed_nonblank.2.1 " build an agent " false
      ⟨"build an agent", some false⟩ (by decide)).1,
    by decide,
    (c9_forms_send_trimmed_nonblank.2.2.2 (some "agent-1") " 1+1 " "agent-1"
      ⟨"1+1"⟩ (by decide)).1⟩

/-- C2: a crash at any point of a mutation's durable write leaves the
snapshot file equal to the complete old snapshot or the complete new one,
never a partial one; a failed durable write rolls the in-memory change back
and surfaces the error with the store unchanged; a committed mutation leaves
memory and durable snapshot equal to the mutated collection; and every
mutation outcome preserves agreement of the in-memory and durable views. -/
theorem c2_store_mutations_atomic_and_consistent :
    (∀ (old new : Snapshot), ∀ dst ∈ snapshotWriteStates old new,
        dst.mainFile = old ∨ dst.mainFile = new) ∧
    (∀ (s : StoreState) (m : Mutation), ∀ dst ∈ mutationCrashStates s m,
        dst.mainFile = s.durable.mainFile ∨ dst.mainFile = applyMem s.memory m) ∧
    (∀ (s : StoreState) (m : Mutation),
        applyMutation s m false = ⟨s, false⟩) ∧
    (∀ (s : StoreState) (m : Mutation),
        (applyMutation s m true).state.memory = applyMem s.memory m ∧
        (applyMutation s m true).state.durable.mainFile = applyMem s.memory m) ∧
    (∀ (s : StoreState) (m : Mutation) (w : Bool),
        storeConsistent s → storeConsistent (applyMutation s m w).state) := by
  refine ⟨fun old new dst hmem => ?_, fun s m dst hmem => ?_,
    fun s m => rfl, fun s m => ⟨rfl, rfl⟩, fun s m w hc => ?_⟩
  · simp only [snapshotWriteStates, List.mem_append, List.mem_map,
      List.mem_range, List.mem_singleton] at hmem
    rcases hmem with ⟨k, _, rfl⟩ | rfl
    · exact Or.inl rfl
    · exact Or.inr rfl
  · simp only [mutationCrashStates, snapshotWriteStates, List.mem_append,
      List.mem_map, List.mem_range, List.mem_singleton] at hmem
    rcases hmem with ⟨k, _, rfl⟩ | rfl
    · exact Or.inl rfl
    · exact Or.inr rfl
  · cases w
    · exact hc
    · rfl

/-- C2 witness: consistency is preserved by a concrete committed creation
starting from the empty, consistent store. -/
theorem c2_store_mutations_atomic_and_consistent_witness :
    storeConsistent (applyMutation emptyStore (Mutation.create calcAgent) true).state :=
  c2_store_mutations_atomic_and_consistent.2.2.2.2 emptyStore
    (Mutation.create calcAgent) true rfl

/-- C6: every definition the factory creates has sub_agents empty whenever
is_composite is false (so sub_agents can be non-empty only for composite
agents), and every store mutation preserves that invariant for everything
held in the store. -/
theorem c6_sub_agents_only_composite :
    (∀ env model req ic freshId now,
        subAgentsInv (factoryCreate env model req ic freshId now)) ∧
    (∀ env model req freshId now,
        (factoryCreate env model req false freshId now).sub_agents = []) ∧
    (∀ (s : StoreState) (d : AgentDefinition) (w : Bool),
        storeInv s → subAgentsInv d →
        storeInv (applyMutation s (Mutation.create d) w).state) ∧
    (∀ (s : StoreState) (id : String) (w : Bool),
        storeInv s → storeInv (applyMutation s (Mutation.delete id) w).state) := by
  refine ⟨fun env model req ic freshId now h => ?_,
    fun env model req freshId now => ?_,
    fun s d w hs hd => ?_, fun s id w hs => ?_⟩
  · have : ic = false := h
    subst this
    rfl
  · rfl
  · cases w
    · exact hs
    · intro e he
      simp only [applyMutation, applyMem] at he ⊢
      rcases List.mem_append.mp he with h1 | h1
      · exact hs e h1
      · rcases List.mem_singleton.mp h1 with rfl
        exact hd
  · cases w
    · exact hs
    · intro e he
      simp only [applyMutation, applyMem] at he ⊢
      exact hs e (List.mem_of_mem_filter he)

/-- C6 witness: a concrete non-composite creation has no sub-agents, and a
concrete store creation preserves the invariant. -/
theorem c6_sub_agents_only_composite_witness :
    (factoryCreate ⟨true, true⟩ ⟨none, none, none⟩ "帮我计算数字" false "id-1"
        "2024-01-01").sub_agents = [] ∧
    storeInv (applyMutation emptyStore (Mutation.create calcAgent) true).state :=
  ⟨c6_sub_agents_only_composite.1 ⟨true, true⟩ ⟨none, none, none⟩ "帮我计算数字"
      false "id-1" "2024-01-01" rfl,
    c6_sub_agents_only_composite.2.2.1 emptyStore calcAgent true
      (fun e he => absurd he (List.not_mem_nil e)) (fun _ => rfl)⟩

/-- C4: for a model plan of tool calls against an agent with tools, the
TaskResult carries exactly one ToolTrace per planned invocation — the trace
at position i is produced by the call at position i, so the list is in
invocation order — each trace the immutable record (tool, input, output,
succeeded, optional error) of its call; the raw model response is retained
only in the optional raw_response field, and neither the result nor the
traces depend on that raw text. -/
theorem c4_one_trace_per_call_in_order_raw_diagnostic
    (env : Env) (prov : ToolProviders) (agent : AgentDefinition)
    (task now raw : String) (calls : List ToolCall) (final : Option String)
    (htools : agent.tools ≠ []) :
    (runnerRun env prov agent task (some (raw, ModelPlan.toolCalls calls final))
        now).tool_traces = calls.map (execCall env prov agent) ∧
    (runnerRun env prov agent task (some (raw, ModelPlan.toolCalls calls final))
        now).tool_traces.length = calls.length ∧
    (∀ (i : Nat) (c : ToolCall), calls[i]? = some c →
      (runnerRun env prov agent task (some (raw, ModelPlan.toolCalls calls final))
          now).tool_traces[i]? = some (execCall env prov agent c)) ∧
    (runnerRun env prov agent task (some (raw, ModelPlan.toolCalls calls final))
        now).raw_response = some raw ∧
    (∀ (raw2 : String) (plan : ModelPlan),
      (runnerRun env prov agent task (some (raw, plan)) now).result =
        (runnerRun env prov agent task (some (raw2, plan)) now).result ∧
      (runnerRun env prov agent task (some (raw, plan)) now).tool_traces =
        (runnerRun env prov agent task (some (raw2, plan)) now).tool_traces) := by
  have hempty : agent.tools.isEmpty = false := by
    simp [List.isEmpty_iff, htools]
  refine ⟨?_, ?_, ?_, ?_, ?_⟩
  · simp [runnerRun, hempty]
  · simp [runnerRun, hempty]
  · intro i c hic
    simp only [runnerRun, hempty, Bool.false_eq_true, if_false]
    rw [List.getElem?_map, hic]
    rfl
  · simp [runnerRun, hempty]
  · intro raw2 plan
    cases plan <;> simp [runnerRun, hempty]

/-- C4 witness: the trace list of a concrete planned run is the map of the
executor over the planned calls. -/
theorem c4_one_trace_per_call_in_order_raw_diagnostic_witness :
    (runnerRun ⟨false, false⟩ downProviders calcAgent "1+1"
        (some ("model raw text",
          ModelPlan.toolCalls [⟨ToolName.calculator, "1+1"⟩] none)) "t0").tool_traces =
      [(⟨ToolName.calculator, "1+1"⟩ : ToolCall)].map
        (execCall ⟨false, false⟩ downProviders calcAgent) :=
  (c4_one_trace_per_call_in_order_raw_diagnostic ⟨false, false⟩ downProviders
    calcAgent "1+1" "t0" "model raw text" [⟨ToolName.calculator, "1+1"⟩] none
    (List.cons_ne_nil _ _)).1

/-- C8: when every tool the agent has configured is the single tool t whose
required credential is absent, a planned run produces one failed trace per
planned call to t — succeeded = false with a populated error — the plan runs
to completion rather than aborting, and a complete TaskResult is still
returned whose result echoes the task. -/
theorem c8_missing_credential_trace_fails_task_returns
    (env : Env) (prov : ToolProviders) (agent : AgentDefinition)
    (t : ToolName) (task now raw : String) (calls : List ToolCall)
    (honly : agent.tools.map ToolConfig.name = [t])
    (hunav : toolAvailable env t = false)
    (hall : ∀ c ∈ calls, c.tool = t) :
    (runnerRun env prov agent task (some (raw, ModelPlan.toolCalls calls none))
        now).tool_traces.length = calls.length ∧
    (∀ tr ∈ (runnerRun env prov agent task
        (some (raw, ModelPlan.toolCalls calls none)) now).tool_traces,
      tr.succeeded = false ∧ tr.error ≠ none) ∧
    runnerRun env prov agent task (some (raw, ModelPlan.toolCalls calls none)) now =
      ⟨agent.agent_id, task, task,
        calls.map (execCall env prov agent), some raw, now⟩ := by
  have htools : agent.tools ≠ [] := by
    intro h0
    rw [h0] at honly
    exact List.noConfusion honly
  have hempty : agent.tools.isEmpty = false := by
    simp [List.isEmpty_iff, htools]
  have hexec : ∀ c ∈ calls, execCall env prov agent c =
      ⟨c.tool, c.input, "", false,
        some "ToolUnavailableError: required credential is missing"⟩ := by
    intro c hc
    have hct := hall c hc
    unfold execCall
    rw [honly, hct]
    simp [hunav]
  have htr : ∀ tr ∈ calls.map (execCall env prov agent), tr.succeeded = false := by
    intro tr htrm
    rcases List.mem_map.mp htrm with ⟨c, hc, rfl⟩
    rw [hexec c hc]
  have hres : fallbackResult task (calls.map (execCall env prov agent)) = task := by
    unfold fallbackResult
    rw [List.filter_eq_nil_iff.mpr (fun tr htrm => by simp [htr tr htrm])]
    rfl
  refine ⟨?_, ?_, ?_⟩
  · simp [runnerRun, hempty]
  · intro tr htrm
    simp only [runnerRun, hempty, Bool.false_eq_true, if_false] at htrm
    rcases List.mem_map.mp htrm with ⟨c, hc, rfl⟩
    rw [hexec c hc]
    exact ⟨rfl, by simp⟩
  · simp [runnerRun, hempty, hres]

/-- C8 witness: a concrete run against the weather-only agent with the AMap
credential absent returns the full TaskResult with the single failed trace. -/
theorem c8_missing_credential_trace_fails_task_returns_witness :
    runnerRun ⟨false, false⟩ downProviders weatherAgent "北京天气"
        (some ("raw", ModelPlan.toolCalls [⟨ToolName.amap_weather, "北京"⟩] none))
        "t1" =
      ⟨weatherAgent.agent_id, "北京天气", "北京天气",
        [⟨ToolName.amap_weather, "北京"⟩].map
          (execCall ⟨false, false⟩ downProviders weatherAgent), some "raw", "t1"⟩ :=
  (c8_missing_credential_trace_fails_task_returns ⟨false, false⟩ downProviders
    weatherAgent ToolName.amap_weather "北京天气" "t1" "raw"
    [⟨ToolName.amap_weather, "北京"⟩] rfl rfl
    (fun c hc => by
      rcases List.mem_singleton.mp hc with rfl
      rfl)).2.2

/-- The JS-faithful line splitter never yields an empty list of lines. -/
theorem splitNl_ne_nil (l : List Char) : splitNl l ≠ [] := by
  cases l with
  | nil => simp [splitNl]
  | cons c cs =>
      unfold splitNl
      by_cases h : c = '\n'
      · simp [h]
      · simp only [if_neg h]
        cases splitNl cs <;> simp

/-- C10 counterexample: the claim as stated fails twice on the code. For raw
"# task  " (trailing blanks) and last task "task" the code returns "> task"
(the stripped first line is additionally trimmed), not the claim's literal
replacement "> task  "; and for the first line "#\tTab heading", which does
not start with the literal "# " and does not restate the task, the code
still demotes it, where the claim says raw is returned unchanged. -/
theorem c10_counterexample :
    toRenderableMarkdown (some "task") "# task  " = "> task" ∧
    claimDemotedFirstLine "# task  " = "> task  " ∧
    toRenderableMarkdown (some "task") "# task  " ≠
      claimDemotedFirstLine "# task  " ∧
    toRenderableMarkdown none "#\tTab heading" = "> Tab heading" ∧
    ¬ ("# ".data <+: "#\tTab heading".data) ∧
    toRenderableMarkdown none "#\tTab heading" ≠ "#\tTab heading" := by
  refine ⟨by decide, by decide, by decide, by decide, by decide, by decide⟩

/-- C10 (amended): the component returns raw with only its first line
replaced by "> " followed by the first line stripped of a leading hash-plus-
whitespace prefix and trimmed of surrounding whitespace, whenever that
stripped-and-trimmed first line equals the (present, non-empty) last task
trimmed, or the first line starts with a hash followed by whitespace; in
every other case raw is returned unchanged — in particular a leading hash
heading is demoted to a blockquote even when it does not restate the task,
and a plain first line equal to the task is demoted too. -/
theorem c10_first_line_demotion (lastTask : Option String) (raw : String) :
    (((∃ lt, lastTask = some lt ∧ lt ≠ "" ∧
          jsTrim (stripHashWs ((linesOf raw).headI)) = jsTrim lt) ∨
        isHashWsStart ((linesOf raw).headI) = true) →
      toRenderableMarkdown lastTask raw =
        String.intercalate "\n"
          (("> " ++ jsTrim (stripHashWs ((linesOf raw).headI))) ::
            (linesOf raw).tail)) ∧
    ((∀ lt, lastTask = some lt →
        lt = "" ∨ jsTrim (stripHashWs ((linesOf raw).headI)) ≠ jsTrim lt) →
      isHashWsStart ((linesOf raw).headI) = false →
      toRenderableMarkdown lastTask raw = raw) ∧
    toRenderableMarkdown (some "do it") "do it\nmore" = "> do it\nmore" ∧
    toRenderableMarkdown none "# Title\nbody" = "> Title\nbody" ∧
    toRenderableMarkdown none "plain\nbody" = "plain\nbody" := by
  have hln : linesOf raw ≠ [] := by
    unfold linesOf
    simp [splitNl_ne_nil]
  rcases hL : linesOf raw with _ | ⟨first, rest⟩
  · exact absurd hL hln
  refine ⟨?_, ?_, by decide, by decide, by decide⟩
  · intro hA
    unfold toRenderableMarkdown
    rw [hL]
    simp only [List.headI, List.tail_cons] at hA ⊢
    cases lastTask with
    | none =>
        rcases hA with ⟨lt, hlt, _, _⟩ | hh
        · exact Option.noConfusion hlt
        · simp [hh]
    | some lt =>
        rcases hA with ⟨lt2, hlt, hne, heq⟩ | hh
        · cases Option.some.inj hlt
          simp [hne, heq]
        · by_cases hb : (!(lt = "") && (jsTrim (stripHashWs first) = jsTrim lt : Bool)) = true
          · simp [hb]
          · simp only [hb, Bool.false_eq_true, if_false] at hb ⊢
            simp [hb, hh]
  · intro hnone hhash
    unfold toRenderableMarkdown
    rw [hL]
    simp only [List.headI] at hnone hhash
    cases lastTask with
    | none => simp [hhash]
    | some lt =>
        rcases hnone lt rfl with h1 | h1
        · simp [h1, hhash]
        · simp [h1, hhash]

/-- C10 witness: a concrete heading that does not restate the task is
demoted, by the general demotion equation. -/
theorem c10_first_line_demotion_witness :
    toRenderableMarkdown none "# Hello\nworld" =
      String.intercalate "\n"
        (("> " ++ jsTrim (stripHashWs ((linesOf "# Hello\nworld").headI))) ::
          (linesOf "# Hello\nworld").tail) :=
  (c10_first_line_demotion none "# Hello\nworld").1 (Or.inr (by decide))

/-! ### Decimal printing round-trips through the tokenizer's number reader -/

theorem digitVal_digitChar {d : Nat} (h : d < 10) :
    digitVal (Nat.digitChar d) = d := by
  interval_cases d <;> rfl

theorem isDigit_digitChar {d : Nat} (h : d < 10) :
    (Nat.digitChar d).isDigit = true := by
  interval_cases d <;> decide

theorem natCharsAux_eq : ∀ (fuel n : Nat), n ≤ fuel →
    natCharsAux fuel n = (Nat.digits 10 n).reverse.map Nat.digitChar := by
  intro fuel
  induction fuel with
  | zero =>
      intro n hn
      interval_cases n
      simp [natCharsAux]
  | succ k ih =>
      intro n hn
      by_cases h0 : n = 0
      · subst h0
        simp [natCharsAux]
      · have hdiv : n / 10 ≤ k := by
          have := Nat.div_lt_self (Nat.pos_of_ne_zero h0) (by norm_num : 1 < 10)
          omega
        rw [natCharsAux, if_neg h0, ih (n / 10) hdiv,
          Nat.digits_def' (by norm_num : 1 < 10) (Nat.pos_of_ne_zero h0)]
        simp

theorem natOfDigits_append (l : List Char) (c : Char) :
    natOfDigits (l ++ [c]) = natOfDigits l * 10 + digitVal c := by
  simp [natOfDigits, List.foldl_append]

theorem natOfDigits_revmap (l : List Nat) (h : ∀ d ∈ l, d < 10) :
    natOfDigits (l.reverse.map Nat.digitChar) = Nat.ofDigits 10 l := by
  induction l with
  | nil => simp [natOfDigits, Nat.ofDigits_nil]
  | cons d t ih =>
      rw [List.reverse_cons, List.map_append, List.map_singleton,
        natOfDigits_append,
        ih (fun x hx => h x (List.mem_cons_of_mem _ hx)),
        digitVal_digitChar (h d (List.mem_cons_self d t)),
        Nat.ofDigits_cons]
      ring

theorem natOfDigits_natChars (n : Nat) : natOfDigits (natChars n) = n := by
  by_cases h0 : n = 0
  · subst h0
    rfl
  · unfold natChars
    rw [if_neg h0, natCharsAux_eq n n le_rfl,
      natOfDigits_revmap _ (fun d hd => Nat.digits_lt_base (by norm_num) hd)]
    exact_mod_cast Nat.ofDigits_digits 10 n

theorem natChars_all_digits (n : Nat) : ∀ c ∈ natChars n, c.isDigit = true := by
  unfold natChars
  by_cases h0 : n = 0
  · simp only [h0, if_true, List.mem_singleton]
    rintro c rfl
    decide
  · rw [if_neg h0, natCharsAux_eq n n le_rfl]
    intro c hc
    rcases List.mem_map.mp hc with ⟨d, hd, rfl⟩
    exact isDigit_digitChar
      (Nat.digits_lt_base (by norm_num) (List.mem_reverse.mp hd))

theorem natChars_ne_nil (n : Nat) : natChars n ≠ [] := by
  unfold natChars
  by_cases h0 : n = 0
  · simp [h0]
  · rw [if_neg h0, natCharsAux_eq n n le_rfl]
    simp [Nat.digits_ne_nil_iff_ne_zero.mpr h0]

theorem flushDigits_natChars (n : Nat) (ts : List Tok) :
    flushDigits (natChars n) ts = Tok.num n :: ts := by
  unfold flushDigits
  rw [if_neg (by simp [List.isEmpty_iff, natChars_ne_nil n]),
    natOfDigits_natChars]

/-! ### The tokenizer inverts the printer -/

theorem groupAux_digits (ds : List Char) (hds : ∀ c ∈ ds, c.isDigit = true) :
    ∀ (rest p : List Char), groupAux (ds ++ rest) p = groupAux rest (p ++ ds) := by
  induction ds with
  | nil =>
      intro rest p
      simp
  | cons c cs ih =>
      intro rest p
      have hc : c.isDigit = true := hds c (List.mem_cons_self c cs)
      rw [List.cons_append, groupAux, if_pos hc,
        ih (fun x hx => hds x (List.mem_cons_of_mem _ hx)) rest (p ++ [c]),
        List.append_assoc]
      rfl

theorem groupAux_flush (p : List Char) :
    ∀ rest, headNonDigit rest = true →
      groupAux rest p = (groupAux rest []).map (flushDigits p) := by
  intro rest h
  cases rest with
  | nil =>
      simp [groupAux, flushDigits]
  | cons c cs =>
      have hcd : c.isDigit = false := by
        simpa [headNonDigit] using h
      by_cases hsp : c = ' '
      · subst hsp
        simp only [groupAux, hcd, Bool.false_eq_true, if_false, if_pos rfl]
        cases groupAux cs [] <;> simp [flushDigits]
      · rcases h2 : opTok c with _ | t
        · simp only [groupAux, hcd, Bool.false_eq_true, if_false, if_neg hsp, h2]
          rfl
        · simp only [groupAux, hcd, Bool.false_eq_true, if_false, if_neg hsp, h2]
          cases groupAux cs [] <;> simp [flushDigits]

theorem tokChars_headNonDigit (t : Tok) (rest : List Char)
    (h : notNum t = true) : headNonDigit (tokChars t ++ rest) = true := by
  cases t with
  | num n => exact absurd h (by simp [notNum])
  | plus => rfl
  | minus => rfl
  | star => rfl
  | slash => rfl
  | lparen => rfl
  | rparen => rfl

theorem groupAux_toksChars :
    ∀ (ts : List Tok), List.Chain' sepOk ts →
      ∀ rest, headNonDigit rest = true →
        groupAux (toksChars ts ++ rest) [] =
          (groupAux rest []).map (fun l => ts ++ l) := by
  intro ts
  induction ts with
  | nil =>
      intro _ rest _
      show groupAux rest [] = _
      cases groupAux rest [] <;> simp
  | cons t ts2 ih =>
      intro hch rest hrest
      have hch2 : List.Chain' sepOk ts2 := hch.tail
      cases t with
      | num n =>
          have hhead : headNonDigit (toksChars ts2 ++ rest) = true := by
            cases ts2 with
            | nil => simpa [toksChars] using hrest
            | cons t2 ts3 =>
                have hsep : sepOk (Tok.num n) t2 := (List.chain'_cons.mp hch).1
                have hnn : notNum t2 = true :=
                  hsep.resolve_left (by simp [notNum])
                rw [show toksChars (t2 :: ts3) = tokChars t2 ++ toksChars ts3 from rfl,
                  List.append_assoc]
                exact tokChars_headNonDigit t2 _ hnn
          rw [show toksChars (Tok.num n :: ts2) = natChars n ++ toksChars ts2 from rfl,
            List.append_assoc,
            groupAux_digits (natChars n) (natChars_all_digits n) _ [],
            List.nil_append,
            groupAux_flush (natChars n) _ hhead,
            ih hch2 rest hrest]
          cases groupAux rest [] with
          | none => rfl
          | some l => simp [flushDigits_natChars]
      | plus =>
          rw [show toksChars (Tok.plus :: ts2) ++ rest =
              '+' :: (toksChars ts2 ++ rest) from rfl,
            groupAux, if_neg (by decide), if_neg (by decide)]
          rw [show opTok '+' = some Tok.plus from rfl, ih hch2 rest hrest]
          cases groupAux rest [] <;> simp [flushDigits]
      | minus =>
          rw [show toksChars (Tok.minus :: ts2) ++ rest =
              '-' :: (toksChars ts2 ++ rest) from rfl,
            groupAux, if_neg (by decide), if_neg (by decide)]
          rw [show opTok '-' = some Tok.minus from rfl, ih hch2 rest hrest]
          cases groupAux rest [] <;> simp [flushDigits]
      | star =>
          rw [show toksChars (Tok.star :: ts2) ++ rest =
              '*' :: (toksChars ts2 ++ rest) from rfl,
            groupAux, if_neg (by decide), if_neg (by decide)]
          rw [show opTok '*' = some Tok.star from rfl, ih hch2 rest hrest]
          cases groupAux rest [] <;> simp [flushDigits]
      | slash =>
          rw [show toksChars (Tok.slash :: ts2) ++ rest =
              '/' :: (toksChars ts2 ++ rest) from rfl,
            groupAux, if_neg (by decide), if_neg (by decide)]
          rw [show opTok '/' = some Tok.slash from rfl, ih hch2 rest hrest]
          cases groupAux rest [] <;> simp [flushDigits]
      | lparen =>
          rw [show toksChars (Tok.lparen :: ts2) ++ rest =
              '(' :: (toksChars ts2 ++ rest) from rfl,
            groupAux, if_neg (by decide), if_neg (by decide)]
          rw [show opTok '(' = some Tok.lparen from rfl, ih hch2 rest hrest]
          cases groupAux rest [] <;> simp [flushDigits]
      | rparen =>
          rw [show toksChars (Tok.rparen :: ts2) ++ rest =
              ')' :: (toksChars ts2 ++ rest) from rfl,
            groupAux, if_neg (by decide), if_neg (by decide)]
          rw [show opTok ')' = some Tok.rparen from rfl, ih hch2 rest hrest]
          cases groupAux rest [] <;> simp [flushDigits]

theorem chain'_bracket (t : Tok) (A B : List Tok) (hA : List.Chain' sepOk A)
    (hB : List.Chain' sepOk B) (ht : notNum t = true) :
    List.Chain' sepOk (Tok.lparen :: (A ++ t :: (B ++ [Tok.rparen]))) := by
  rw [List.chain'_cons']
  refine ⟨fun y _ => Or.inl rfl, ?_⟩
  rw [List.chain'_append]
  refine ⟨hA, ?_, ?_⟩
  · rw [List.chain'_cons']
    refine ⟨fun y _ => Or.inl ht, ?_⟩
    rw [List.chain'_append]
    refine ⟨hB, List.chain'_singleton _, fun x _ y hy => ?_⟩
    simp only [List.head?_cons, Option.mem_def, Option.some.injEq] at hy
    subst hy
    exact Or.inr rfl
  · intro x _ y hy
    simp only [List.head?_cons, Option.mem_def, Option.some.injEq] at hy
    subst hy
    exact Or.inr ht

theorem chain'_tokensOf (e : Expr) : List.Chain' sepOk (tokensOf e) := by
  induction e with
  | num n => exact List.chain'_singleton _
  | add a b iha ihb => exact chain'_bracket Tok.plus _ _ iha ihb rfl
  | sub a b iha ihb => exact chain'_bracket Tok.minus _ _ iha ihb rfl
  | mul a b iha ihb => exact chain'_bracket Tok.star _ _ iha ihb rfl
  | div a b iha ihb => exact chain'_bracket Tok.slash _ _ iha ihb rfl

theorem tokenize_printE (e : Expr) : tokenize (printE e) = some (tokensOf e) := by
  show groupAux (toksChars (tokensOf e)) [] = some (tokensOf e)
  have h := groupAux_toksChars (tokensOf e) (chain'_tokensOf e) [] rfl
  rw [List.append_nil] at h
  rw [h]
  simp [groupAux, flushDigits]

/-! ### The parser inverts the printer -/

theorem fsize_pos (e : Expr) : 1 ≤ fsize e := by
  cases e <;> simp [fsize]

theorem headNotMulDiv_of_headNotOp (ts : List Tok) (h : headNotOp ts = true) :
    headNotMulDiv ts = true := by
  cases ts with
  | nil => rfl
  | cons t ts2 => cases t <;> simp_all [headNotOp, headNotMulDiv]

theorem parseTermLoop_stop (e : Expr) (ts : List Tok)
    (h : headNotMulDiv ts = true) :
    ∀ fuel, 1 ≤ fuel → parseTermLoop fuel e ts = some (e, ts) := by
  intro fuel hf
  cases fuel with
  | zero => omega
  | succ k =>
      cases ts with
      | nil => rfl
      | cons t ts2 =>
          cases t with
          | star => exact Bool.noConfusion h
          | slash => exact Bool.noConfusion h
          | num n => rfl
          | plus => rfl
          | minus => rfl
          | lparen => rfl
          | rparen => rfl

theorem parseExprLoop_stop (e : Expr) (ts : List Tok)
    (h : headNotOp ts = true) :
    ∀ fuel, 1 ≤ fuel → parseExprLoop fuel e ts = some (e, ts) := by
  intro fuel hf
  cases fuel with
  | zero => omega
  | succ k =>
      cases ts with
      | nil => rfl
      | cons t ts2 =>
          cases t with
          | plus => exact Bool.noConfusion h
          | minus => exact Bool.noConfusion h
          | num n => rfl
          | star => rfl
          | slash => rfl
          | lparen => rfl
          | rparen => rfl

theorem parseTerm_of_factor (e : Expr)
    (hF : ∀ rest fuel, fsize e ≤ fuel →
      parseFactor fuel (tokensOf e ++ rest) = some (e, rest)) :
    ∀ rest fuel, fsize e + 1 ≤ fuel → headNotMulDiv rest = true →
      parseTerm fuel (tokensOf e ++ rest) = some (e, rest) := by
  intro rest fuel hf hr
  have hpe := fsize_pos e
  cases fuel with
  | zero => omega
  | succ k =>
      rw [parseTerm, hF rest k (by omega)]
      exact parseTermLoop_stop e rest hr k (by omega)

theorem parseExpr_of_factor (e : Expr)
    (hF : ∀ rest fuel, fsize e ≤ fuel →
      parseFactor fuel (tokensOf e ++ rest) = some (e, rest)) :
    ∀ rest fuel, fsize e + 2 ≤ fuel → headNotOp rest = true →
      parseExpr fuel (tokensOf e ++ rest) = some (e, rest) := by
  intro rest fuel hf hr
  have hpe := fsize_pos e
  cases fuel with
  | zero => omega
  | succ k =>
      rw [parseExpr,
        parseTerm_of_factor e hF rest k (by omega) (headNotMulDiv_of_headNotOp rest hr)]
      exact parseExprLoop_stop e rest hr k (by omega)

theorem parseFactor_lparen (fuel : Nat) (ts : List Tok) :
    parseFactor (fuel + 1) (Tok.lparen :: ts) =
      match parseExpr fuel ts with
      | some (e, Tok.rparen :: ts2) => some (e, ts2)
      | _ => none := rfl

theorem parseExpr_step (fuel : Nat) (ts : List Tok) :
    parseExpr (fuel + 1) ts =
      match parseTerm fuel ts with
      | some (e, ts2) => parseExprLoop fuel e ts2
      | none => none := rfl

theorem parseTerm_step (fuel : Nat) (ts : List Tok) :
    parseTerm (fuel + 1) ts =
      match parseFactor fuel ts with
      | some (e, ts2) => parseTermLoop fuel e ts2
      | none => none := rfl

theorem parseExprLoop_plus (fuel : Nat) (e : Expr) (ts : List Tok) :
    parseExprLoop (fuel + 1) e (Tok.plus :: ts) =
      match parseTerm fuel ts with
      | some (f, ts2) => parseExprLoop fuel (Expr.add e f) ts2
      | none => none := rfl

theorem parseExprLoop_minus (fuel : Nat) (e : Expr) (ts : List Tok) :
    parseExprLoop (fuel + 1) e (Tok.minus :: ts) =
      match parseTerm fuel ts with
      | some (f, ts2) => parseExprLoop fuel (Expr.sub e f) ts2
      | none => none := rfl

theorem parseTermLoop_star (fuel : Nat) (e : Expr) (ts : List Tok) :
    parseTermLoop (fuel + 1) e (Tok.star :: ts) =
      match parseFactor fuel ts with
      | some (f, ts2) => parseTermLoop fuel (Expr.mul e f) ts2
      | none => none := rfl

theorem parseTermLoop_slash (fuel : Nat) (e : Expr) (ts : List Tok) :
    parseTermLoop (fuel + 1) e (Tok.slash :: ts) =
      match parseFactor fuel ts with
      | some (f, ts2) => parseTermLoop fuel (Expr.div e f) ts2
      | none => none := rfl

theorem parseFactor_tokensOf (e : Expr) :
    ∀ (rest : List Tok) (fuel : Nat), fsize e ≤ fuel →
      parseFactor fuel (tokensOf e ++ rest) = some (e, rest) := by
  induction e with
  | num n =>
      intro rest fuel hf
      cases fuel with
      | zero => simp [fsize] at hf
      | succ k => rfl
  | add a b iha ihb =>
      intro rest fuel hfuel
      have hpa := fsize_pos a
      have hpb := fsize_pos b
      simp only [fsize] at hfuel
      obtain ⟨k, rfl⟩ : ∃ k, fuel = k + 1 := ⟨fuel - 1, by omega⟩
      obtain ⟨j, rfl⟩ : ∃ j, k = j + 1 := ⟨k - 1, by omega⟩
      obtain ⟨i, rfl⟩ : ∃ i, j = i + 1 := ⟨j - 1, by omega⟩
      have hb2 : parseTerm i (tokensOf b ++ (Tok.rparen :: rest)) =
          some (b, Tok.rparen :: rest) :=
        parseTerm_of_factor b ihb (Tok.rparen :: rest) i (by omega) rfl
      have ha2 : parseTerm (i + 1)
          (tokensOf a ++ (Tok.plus :: (tokensOf b ++ (Tok.rparen :: rest)))) =
          some (a, Tok.plus :: (tokensOf b ++ (Tok.rparen :: rest))) :=
        parseTerm_of_factor a iha _ (i + 1) (by omega) rfl
      rw [show tokensOf (Expr.add a b) ++ rest =
          Tok.lparen :: (tokensOf a ++
            (Tok.plus :: (tokensOf b ++ (Tok.rparen :: rest)))) by
        simp [tokensOf]]
      simp only [parseFactor_lparen, parseExpr_step, ha2, parseExprLoop_plus,
        hb2, parseExprLoop_stop (Expr.add a b) (Tok.rparen :: rest) rfl i
          (by omega)]
  | sub a b iha ihb =>
      intro rest fuel hfuel
      have hpa := fsize_pos a
      have hpb := fsize_pos b
      simp only [fsize] at hfuel
      obtain ⟨k, rfl⟩ : ∃ k, fuel = k + 1 := ⟨fuel - 1, by omega⟩
      obtain ⟨j, rfl⟩ : ∃ j, k = j + 1 := ⟨k - 1, by omega⟩
      obtain ⟨i, rfl⟩ : ∃ i, j = i + 1 := ⟨j - 1, by omega⟩
      have hb2 : parseTerm i (tokensOf b ++ (Tok.rparen :: rest)) =
          some (b, Tok.rparen :: rest) :=
        parseTerm_of_factor b ihb (Tok.rparen :: rest) i (by omega) rfl
      have ha2 : parseTerm (i + 1)
          (tokensOf a ++ (Tok.minus :: (tokensOf b ++ (Tok.rparen :: rest)))) =
          some (a, Tok.minus :: (tokensOf b ++ (Tok.rparen :: rest))) :=
        parseTerm_of_factor a iha _ (i + 1) (by omega) rfl
      rw [show tokensOf (Expr.sub a b) ++ rest =
          Tok.lparen :: (tokensOf a ++
            (Tok.minus :: (tokensOf b ++ (Tok.rparen :: rest)))) by
        simp [tokensOf]]
      simp only [parseFactor_lparen, parseExpr_step, ha2, parseExprLoop_minus,
        hb2, parseExprLoop_stop (Expr.sub a b) (Tok.rparen :: rest) rfl i
          (by omega)]
  | mul a b iha ihb =>
      intro rest fuel hfuel
      have hpa := fsize_pos a
      have hpb := fsize_pos b
      simp only [fsize] at hfuel
      obtain ⟨k, rfl⟩ : ∃ k, fuel = k + 1 := ⟨fuel - 1, by omega⟩
      obtain ⟨j, rfl⟩ : ∃ j, k = j + 1 := ⟨k - 1, by omega⟩
      obtain ⟨i, rfl⟩ : ∃ i, j = i + 1 := ⟨j - 1, by omega⟩
      obtain ⟨m, rfl⟩ : ∃ m, i = m + 1 := ⟨i - 1, by omega⟩
      have hb2 : parseFactor m (tokensOf b ++ (Tok.rparen :: rest)) =
          some (b, Tok.rparen :: rest) :=
        ihb (Tok.rparen :: rest) m (by omega)
      have ha2 : parseFactor (m + 1)
          (tokensOf a ++ (Tok.star :: (tokensOf b ++ (Tok.rparen :: rest)))) =
          some (a, Tok.star :: (tokensOf b ++ (Tok.rparen :: rest))) :=
        iha _ (m + 1) (by omega)
      rw [show tokensOf (Expr.mul a b) ++ rest =
          Tok.lparen :: (tokensOf a ++
            (Tok.star :: (tokensOf b ++ (Tok.rparen :: rest)))) by
        simp [tokensOf]]
      simp only [parseFactor_lparen, parseExpr_step, parseTerm_step, ha2,
        parseTermLoop_star, hb2,
        parseTermLoop_stop (Expr.mul a b) (Tok.rparen :: rest) rfl m (by omega),
        parseExprLoop_stop (Expr.mul a b) (Tok.rparen :: rest) rfl (m + 2)
          (by omega)]
  | div a b iha ihb =>
      intro rest fuel hfuel
      have hpa := fsize_pos a
      have hpb := fsize_pos b
      simp only [fsize] at hfuel
      obtain ⟨k, rfl⟩ : ∃ k, fuel = k + 1 := ⟨fuel - 1, by omega⟩
      obtain ⟨j, rfl⟩ : ∃ j, k = j + 1 := ⟨k - 1, by omega⟩
      obtain ⟨i, rfl⟩ : ∃ i, j = i + 1 := ⟨j - 1, by omega⟩
      obtain ⟨m, rfl⟩ : ∃ m, i = m + 1 := ⟨i - 1, by omega⟩
      have hb2 : parseFactor m (tokensOf b ++ (Tok.rparen :: rest)) =
          some (b, Tok.rparen :: rest) :=
        ihb (Tok.rparen :: rest) m (by omega)
      have ha2 : parseFactor (m + 1)
          (tokensOf a ++ (Tok.slash :: (tokensOf b ++ (Tok.rparen :: rest)))) =
          some (a, Tok.slash :: (tokensOf b ++ (Tok.rparen :: rest))) :=
        iha _ (m + 1) (by omega)
      rw [show tokensOf (Expr.div a b) ++ rest =
          Tok.lparen :: (tokensOf a ++
            (Tok.slash :: (tokensOf b ++ (Tok.rparen :: rest)))) by
        simp [tokensOf]]
      simp only [parseFactor_lparen, parseExpr_step, parseTerm_step, ha2,
        parseTermLoop_slash, hb2,
        parseTermLoop_stop (Expr.div a b) (Tok.rparen :: rest) rfl m (by omega),
        parseExprLoop_stop (Expr.div a b) (Tok.rparen :: rest) rfl (m + 2)
          (by omega)]

theorem fsize_le (e : Expr) : fsize e ≤ 2 * (tokensOf e).length + 1 := by
  induction e with
  | num n => simp [fsize, tokensOf]
  | add a b iha ihb =>
      simp only [fsize, tokensOf, List.length_cons, List.length_append] at iha ihb ⊢
      omega
  | sub a b iha ihb =>
      simp only [fsize, tokensOf, List.length_cons, List.length_append] at iha ihb ⊢
      omega
  | mul a b iha ihb =>
      simp only [fsize, tokensOf, List.length_cons, List.length_append] at iha ihb ⊢
      omega
  | div a b iha ihb =>
      simp only [fsize, tokensOf, List.length_cons, List.length_append] at iha ihb ⊢
      omega

theorem parseToks_tokensOf (e : Expr) : parseToks (tokensOf e) = some e := by
  unfold parseToks
  have h := parseExpr_of_factor e (parseFactor_tokensOf e) []
    (3 * (tokensOf e).length + 3)
    (by have := fsize_le e; omega) rfl
  rw [List.append_nil] at h
  rw [h]

theorem calcInvoke_printE (e : Expr) :
    calcInvoke (printE e) =
      match evalE e with
      | some q => Except.ok (renderQ q)
      | none => Except.error "ToolExecutionError: division by zero" := by
  unfold calcInvoke
  rw [tokenize_printE e]
  show (match parseToks (tokensOf e) with
        | none => Except.error "ToolExecutionError: malformed expression"
        | some ex =>
            match evalE ex with
            | none => Except.error "ToolExecutionError: division by zero"
            | some q => Except.ok (renderQ q)) = _
  rw [parseToks_tokensOf e]
  cases h : evalE e with
  | none => simp [h]
  | some q => simp [h]

/-- C7: running "1200+365" against an agent configured with the calculator
(model unavailable, so the deterministic fallback drives the tool directly)
yields a TaskResult whose result is "1565" (so contains "1565") with exactly
one calculator trace, succeeded = true; and in general the calculator
evaluates every printed arithmetic expression over numeric literals and the
four operators with parentheses to its exact value rendered as a decimal
string, failing with a ToolExecutionError on division by zero — and on
malformed input, as the concrete instances show. -/
theorem c7_calculator_evaluates_arithmetic (env : Env) (prov : ToolProviders)
    (now : String) :
    (runnerRun env prov calcAgent "1200+365" none now).result = "1565" ∧
    "1565".data <:+: (runnerRun env prov calcAgent "1200+365" none now).result.data ∧
    (runnerRun env prov calcAgent "1200+365" none now).tool_traces =
      [⟨ToolName.calculator, "1200+365", "1565", true, none⟩] ∧
    (∀ e : Expr, calcInvoke (printE e) =
      match evalE e with
      | some q => Except.ok (renderQ q)
      | none => Except.error "ToolExecutionError: division by zero") ∧
    calcInvoke "1/0" = Except.error "ToolExecutionError: division by zero" ∧
    calcInvoke "1200+" = Except.error "ToolExecutionError: malformed expression" ∧
    calcInvoke "not arithmetic" = Except.error "ToolExecutionError: malformed expression" ∧
    calcInvoke "2*(3+4)" = Except.ok "14" ∧
    calcInvoke "10/4" = Except.ok "5/2" :=
  ⟨rfl, List.infix_rfl, rfl, calcInvoke_printE, rfl, rfl, rfl, rfl, rfl⟩

end MetaAgent
